import Mathlib

/-!
Shallow embedding of the DPA margin simulator (`dpa_margin_sim.py`) and the
test-fixture HTTP file server (`database.py`), together with proofs of the
stated properties of move-list synthesis, the extensive interference check
loop, margin statistics, log reconciliation and URL-to-file translation.
-/

namespace DpaMarginSim

/-- A grant (transmitter entry); identity is all the claims need, so grants
are represented by natural numbers. -/
abbrev Grant := Nat

/-- A move list: one set of grants per channel index
(`dpa.move_lists` in the source). -/
abbrev MoveList := List (Finset Grant)

/-- Python exceptions surfaced by the embedded code. -/
inductive PyError : Type
  | valueError (msg : String)
  | typeError (msg : String)
  | zeroDivision
  | indexError
deriving DecidableEq

instance {ε α : Type} [DecidableEq ε] [DecidableEq α] : DecidableEq (Except ε α) :=
fun x y =>
  match x, y with
  | .ok a, .ok b =>
    if h : a = b then .isTrue (by rw [h])
    else .isFalse (fun hc => h (Except.ok.inj hc))
  | .error a, .error b =>
    if h : a = b then .isTrue (by rw [h])
    else .isFalse (fun hc => h (Except.error.inj hc))
  | .ok _, .error _ => .isFalse (fun hc => Except.noConfusion hc)
  | .error _, .ok _ => .isFalse (fun hc => Except.noConfusion hc)

/-- `ml[chan_idx]`: the per-channel set of a move list.  Python raises
IndexError for an out-of-range channel; here a default empty set is returned
and the theorems carry the validity hypotheses of the claims. -/
def chanSet (ml : MoveList) (chanIdx : Nat) : Finset Grant := ml.getD chanIdx ∅

/-- `ml_size = [len(ml[chan_idx]) for ml in ml_list]`. -/
def mlSizes (ml_list : List MoveList) (chanIdx : Nat) : List Nat :=
  ml_list.map fun ml => (chanSet ml chanIdx).card

/-- Python `list.index(a)`: index of the first occurrence of `a`.
(Python raises ValueError when absent; every call site here is guarded by a
membership fact.) -/
def listIndex (a : Nat) : List Nat → Nat
  | [] => 0
  | x :: xs => if x = a then 0 else listIndex a xs + 1

/-- `np.min` of a list (numpy raises on an empty array; call sites guard). -/
def npMin : List Nat → Nat
  | [] => 0
  | x :: xs => xs.foldl min x

/-- `np.max` of a list (numpy raises on an empty array; call sites guard). -/
def npMax : List Nat → Nat
  | [] => 0
  | x :: xs => xs.foldl max x

/-- The index used by `np.percentile(xs, 50, interpolation='nearest')`:
the position `(n-1)/2` rounded by `np.around`, i.e. half-to-even. -/
def nearestRank50 (n : Nat) : Nat :=
  if (n - 1) % 2 = 0 then (n - 1) / 2
  else if ((n - 1) / 2) % 2 = 0 then (n - 1) / 2 else (n - 1) / 2 + 1

/-- `np.percentile(xs, 50, interpolation='nearest')`: the element of the
sorted list at the nearest rank (no averaging of two values). -/
def percentile50Nearest (xs : List Nat) : Nat :=
  (List.insertionSort (· ≤ ·) xs).getD (nearestRank50 xs.length) 0

/-- `set.intersection(*sets)`: intersection of a non-empty list of sets
(Python raises TypeError with no argument; call sites guard). -/
def interAll : List (Finset Grant) → Finset Grant
  | [] => ∅
  | s :: rest => rest.foldl (· ∩ ·) s

/-- Python `str.startswith`, on the character lists of the strings. -/
def pyStartsWith (s p : String) : Bool := p.data.isPrefixOf s.data

/-- The number that `SyntheticMoveList` substitutes for `num == 0`
(`if num == 0: num = len(ml_list)`). -/
def effNum (ml_list : List MoveList) (num0 : Nat) : Nat :=
  if num0 = 0 then ml_list.length else num0

/-- `ml_size[:num]`: the window of per-run sizes the statistics range over. -/
def sizeWindow (ml_list : List MoveList) (chanIdx num0 : Nat) : List Nat :=
  (mlSizes ml_list chanIdx).take (effNum ml_list num0)

/-- `SyntheticMoveList(ml_list, method, num, chan_idx)` from
`dpa_margin_sim.py`: collapses a list of move-list runs into one according to
the selection method.  The final `else` mirrors
`raise ValueError('Ref ML method %d unsupported' % method)`: the `%d`
specifier applied to the string `method` makes the message formatting itself
raise TypeError, so the ValueError is never constructed. -/
def SyntheticMoveList (ml_list : List MoveList) (method : String) (num0 : Nat)
    (chan_idx : Nat) : Except PyError MoveList :=
  let num := effNum ml_list num0
  let ml_size := mlSizes ml_list chan_idx
  let window := ml_size.take num
  if pyStartsWith method "med" then
    -- np.percentile raises on an empty array
    if window = [] then .error .indexError
    else .ok (ml_list.getD (listIndex (percentile50Nearest window) ml_size) [])
  else if pyStartsWith method "max" then
    if window = [] then
      .error (.valueError "attempt to get argmax of an empty sequence")
    else .ok (ml_list.getD (listIndex (npMax window) window) [])
  else if pyStartsWith method "min" then
    if window = [] then
      .error (.valueError "attempt to get argmin of an empty sequence")
    else .ok (ml_list.getD (listIndex (npMin window) window) [])
  else if pyStartsWith method "int" then
    match ml_list with
    | [] => .error .indexError  -- ml_list[0]
    | ml0 :: _ =>
      if ml_list.length < num then .error .indexError  -- ml_list[k]
      else
        .ok ((List.range ml0.length).map fun chan =>
          interAll ((List.range num).map fun k => chanSet (ml_list.getD k []) chan))
  else if pyStartsWith method "idx" then
    match ((method.drop 3).splitOn "idx").headD "" |>.toNat? with
    | none => .error (.valueError "invalid literal for int()")
    | some idx =>
      if idx < ml_list.length then .ok (ml_list.getD idx [])
      else .error .indexError
  else
    .error (.typeError "%d format: a number is required, not str")

/-! ## Margin statistics (`ScatterAnalyze`) -/

/-- Modelled from the spec: `toLinear(x) = 10^(x/10)`.  The source imports
`Db2Lin` from `reference_models.dpa.dpa_mgr`, which is not under `src/`. -/
noncomputable def Db2Lin (x : ℝ) : ℝ := (10 : ℝ) ^ (x / 10)

/-- Modelled from the spec: `toDb(x) = 10·log10(x)`.  The source imports
`Lin2Db` from `reference_models.dpa.dpa_mgr`, which is not under `src/`. -/
noncomputable def Lin2Db (x : ℝ) : ℝ := 10 * Real.logb 10 x

/-- One entry of `diff_mw` in `ScatterAnalyze`: a sample is the pair
(reference level in dBm, delta in dB) and its linear-domain delta is
`Db2Lin(ref + diff) - Db2Lin(ref)`. -/
noncomputable def deltaLinear (s : ℝ × ℝ) : ℝ := Db2Lin (s.1 + s.2) - Db2Lin s.1

/-- `max_diff_mw = np.max(diff_mw)` over the samples
(numpy raises on an empty array; `ScatterAnalyze` returns early then). -/
noncomputable def maxDiffMw (samples : List (ℝ × ℝ)) : ℝ :=
  ((samples.map deltaLinear).max?).getD 0

/-- `max_margin_db = Lin2Db(max_diff_mw + Db2Lin(threshold_db)) - threshold_db`
from `ScatterAnalyze`. -/
noncomputable def maxMarginDb (samples : List (ℝ × ℝ)) (threshold_db : ℝ) : ℝ :=
  Lin2Db (maxDiffMw samples + Db2Lin threshold_db) - threshold_db

/-! ## Extensive interference check -/

/-- What `ExtensiveInterferenceCheck` has produced when it returns:
the success count, the `num_check` denominator of the success-rate print,
the reference move list assigned to `dpa.move_lists` at each iteration, and
the accumulated per-point levels.  The sample payload type is a parameter
since the check primitive is external. -/
structure ExtResult (α : Type) where
  numSuccess : Nat
  numCheck : Int
  checkedMls : List MoveList
  refLevels : List α
  diffLevels : List α
deriving DecidableEq

/-- The `for k in range(num_check)` loop body of `ExtensiveInterferenceCheck`:
synthesize from `ref_move_lists[k:]`, assign it, run the external check once
(`check k ml` returns its success flag and its valid samples, already
filtered of degenerate-geometry points), and accumulate. -/
def extLoop {α : Type} (check : Nat → MoveList → Bool × List (α × α))
    (ref_move_lists : List MoveList) (ref_ml_num : Nat) (ref_ml_method : String)
    (chan_idx : Nat) :
    List Nat → Nat → List MoveList → List α → List α →
    Except PyError (Nat × List MoveList × List α × List α)
  | [], succ, mls, refs, diffs => .ok (succ, mls, refs, diffs)
  | k :: ks, succ, mls, refs, diffs =>
    match SyntheticMoveList (ref_move_lists.drop k) ref_ml_method ref_ml_num chan_idx with
    | .error e => .error e
    | .ok ml =>
      let res := check k ml
      extLoop check ref_move_lists ref_ml_num ref_ml_method chan_idx ks
        (succ + (if res.1 then 1 else 0)) (mls ++ [ml])
        (refs ++ res.2.map Prod.fst) (diffs ++ res.2.map Prod.snd)

/-- `ExtensiveInterferenceCheck(dpa, uut_keep_list, ref_move_lists,
ref_ml_num, ref_ml_method, channel, chan_idx)`: slides a window over
`ref_move_lists` and checks the UUT keep list against each synthesized
reference move list.  After the loop, the success-rate print divides by
`num_check`, which raises ZeroDivisionError when `num_check == 0`
(`range` of a negative `num_check` is simply empty, and a negative
denominator does not raise). -/
def ExtensiveInterferenceCheck {α : Type}
    (check : Nat → MoveList → Bool × List (α × α))
    (ref_move_lists : List MoveList) (ref_ml_num : Nat) (ref_ml_method : String)
    (chan_idx : Nat) : Except PyError (ExtResult α) :=
  let num_synth_ml : Nat := if ref_ml_num = 0 then 1 else ref_ml_num
  let num_check : Int := (ref_move_lists.length : Int) - (num_synth_ml : Int) + 1
  match extLoop check ref_move_lists ref_ml_num ref_ml_method chan_idx
      (List.range num_check.toNat) 0 [] [] [] with
  | .error e => .error e
  | .ok (succ, mls, refs, diffs) =>
    if num_check = 0 then .error .zeroDivision
    else .ok ⟨succ, num_check, mls, refs, diffs⟩

/-! ## Log reconciliation (`DpaAnalyzeLogs`, lines 665-689 and 727-728) -/

/-- What the reconciliation stage of `DpaAnalyzeLogs` establishes before the
interference re-checks: the grant list used for the DPA, the `no_peers`
flag, the reference move list (computed only when the log neighbor list is
non-empty) and the UUT keep set. -/
structure ReconcileResult where
  grants : List Grant
  noPeers : Bool
  refMoveList : Option (Finset Grant)
  uutKeepList : Finset Grant
deriving DecidableEq

/-- The reconciliation stage of `DpaAnalyzeLogs`.  With a config file all
grants (config- and log-sourced) are passed through `CleanGrant` (the
`clean` parameter; it lives in `sim_utils`, outside `src/`) and the grant
source is the config file; without one the grant source is the raw log
neighbor list.  `no_peers = not ref_nbor_list and uut_keep_list`;
`raise ValueError` when the grant list is empty; the reference move list
`nbor_list.difference(ref_keep_list)` (with `nbor_list` the recomputed
neighbor list `calcNborList`, an external input) is built only under
`if len(ref_nbor_list):`. -/
def DpaLogReconcile (clean : Grant → Grant) (configGrants : Option (List Grant))
    (logNborList logRefKeepList logUutKeepList : List Grant)
    (calcNborList : Finset Grant) : Except PyError ReconcileResult :=
  let grants := match configGrants with
    | some gs => gs.map clean
    | none => logNborList
  let nborL := match configGrants with
    | some _ => logNborList.map clean
    | none => logNborList
  let keepL := match configGrants with
    | some _ => logRefKeepList.map clean
    | none => logRefKeepList
  let uutL := match configGrants with
    | some _ => logUutKeepList.map clean
    | none => logUutKeepList
  let refNborSet : Finset Grant := nborL.toFinset
  let refKeepSet : Finset Grant := keepL.toFinset
  let uutKeepSet : Finset Grant := uutL.toFinset
  let noPeers : Bool := decide (refNborSet = (∅ : Finset Grant) ∧ uutKeepSet ≠ ∅)
  if grants = [] then
    .error (.valueError "No grants specified - use a valid config file.")
  else
    .ok { grants := grants
          noPeers := noPeers
          refMoveList :=
            if refNborSet ≠ ∅ then some (calcNborList \ refKeepSet) else none
          uutKeepList := uutKeepSet }

/-! ## HTTP test-fixture server (`database.py`) -/

/-- `'Basic ' + base64.b64encode(b'username:password')`. -/
def authorizationString : String := "Basic dXNlcm5hbWU6cGFzc3dvcmQ="

/-- Python dict / message lookup on an association list (first match). -/
def pyLookup (k : String) : List (String × String) → Option String
  | [] => none
  | (a, b) :: rest => if a = k then some b else pyLookup k rest

/-- Outcome of `DatabaseHandler.translate_path`: the HTTP status written
before returning, if any, and the returned file path. -/
structure TranslateResult where
  status : Option Nat
  filePath : String
deriving DecidableEq

/-- `DatabaseHandler.translate_path(path)` from `database.py`: with
authorization enabled, a missing or wrong `Authorization` header sends a 401
and yields the empty string; otherwise the configured mapping
`server.file_paths` is consulted and an unmapped path yields the empty
string. -/
def translatePath (authorization : Bool) (filePaths : List (String × String))
    (headers : List (String × String)) (path : String) : TranslateResult :=
  if authorization then
    match pyLookup "Authorization" headers with
    | none => ⟨some 401, ""⟩
    | some v =>
      if v ≠ authorizationString then ⟨some 401, ""⟩
      else ⟨none, (pyLookup path filePaths).getD ""⟩
  else ⟨none, (pyLookup path filePaths).getD ""⟩


/-- Scenario 1 of the spec: five single-channel runs with per-run sizes
`[3,5,2,5,4]`. -/
def scenarioRuns : List MoveList :=
  [[({0,1,2} : Finset Grant)], [{0,1,2,3,4}], [{0,1}], [{1,2,3,4,5}], [{0,1,2,3}]]

section ListHelpers

variable {α : Type*}

lemma getD_mem {l : List α} {j : Nat} (hj : j < l.length) (d : α) :
    l.getD j d ∈ l := by
  induction l generalizing j with
  | nil => simp at hj
  | cons x xs ih =>
    cases j with
    | zero => simp
    | succ j =>
      simp only [List.getD_cons_succ]
      exact List.mem_cons_of_mem _ (ih (by simpa using hj))

lemma getD_take {l : List α} {n j : Nat} (hj : j < n) (d : α) :
    (l.take n).getD j d = l.getD j d := by
  induction l generalizing n j with
  | nil => simp
  | cons x xs ih =>
    cases n with
    | zero => omega
    | succ n =>
      cases j with
      | zero => simp
      | succ j =>
        simp only [List.take_succ_cons, List.getD_cons_succ]
        exact ih (Nat.lt_of_succ_lt_succ hj)

lemma getD_map_range {β : Type*} (f : Nat → β) {n j : Nat} (hj : j < n) (d : β) :
    (((List.range n).map f).getD j d) = f j := by
  have h1 : j < ((List.range n).map f).length := by simpa using hj
  have h2 : ((List.range n).map f).getD j d = ((List.range n).map f)[j] :=
    List.getD_eq_getElem _ _ h1
  rw [h2]
  simp

variable [LinearOrder α]

lemma foldl_min_le_init (l : List α) (x : α) : l.foldl min x ≤ x := by
  induction l generalizing x with
  | nil => exact le_refl x
  | cons y ys ih => exact le_trans (ih (min x y)) (min_le_left x y)

lemma foldl_min_le_mem (l : List α) (x : α) : ∀ a ∈ l, l.foldl min x ≤ a := by
  induction l generalizing x with
  | nil => intro a ha; cases ha
  | cons y ys ih =>
    intro a ha
    rcases List.mem_cons.mp ha with h | h
    · subst h
      exact le_trans (foldl_min_le_init ys (min x a)) (min_le_right x a)
    · exact ih (min x y) a h

lemma foldl_min_eq_init_or_mem (l : List α) (x : α) :
    l.foldl min x = x ∨ l.foldl min x ∈ l := by
  induction l generalizing x with
  | nil => exact Or.inl rfl
  | cons y ys ih =>
    rcases ih (min x y) with h | h
    · rcases min_choice x y with hc | hc
      · exact Or.inl (by rw [List.foldl_cons, h, hc])
      · refine Or.inr ?_
        rw [List.foldl_cons, h, hc]
        exact List.mem_cons_self y ys
    · exact Or.inr (List.mem_cons_of_mem y h)

lemma init_le_foldl_max (l : List α) (x : α) : x ≤ l.foldl max x := by
  induction l generalizing x with
  | nil => exact le_refl x
  | cons y ys ih => exact le_trans (le_max_left x y) (ih (max x y))

lemma mem_le_foldl_max (l : List α) (x : α) : ∀ a ∈ l, a ≤ l.foldl max x := by
  induction l generalizing x with
  | nil => intro a ha; cases ha
  | cons y ys ih =>
    intro a ha
    rcases List.mem_cons.mp ha with h | h
    · subst h
      exact le_trans (le_max_right x a) (init_le_foldl_max ys (max x a))
    · exact ih (max x y) a h

lemma foldl_max_eq_init_or_mem (l : List α) (x : α) :
    l.foldl max x = x ∨ l.foldl max x ∈ l := by
  induction l generalizing x with
  | nil => exact Or.inl rfl
  | cons y ys ih =>
    rcases ih (max x y) with h | h
    · rcases max_choice x y with hc | hc
      · exact Or.inl (by rw [List.foldl_cons, h, hc])
      · refine Or.inr ?_
        rw [List.foldl_cons, h, hc]
        exact List.mem_cons_self y ys
    · exact Or.inr (List.mem_cons_of_mem y h)

end ListHelpers

lemma npMin_mem {l : List Nat} (h : l ≠ []) : npMin l ∈ l := by
  match l with
  | [] => exact absurd rfl h
  | x :: xs =>
    rcases foldl_min_eq_init_or_mem xs x with h1 | h1
    · rw [npMin, h1]; exact List.mem_cons_self x xs
    · rw [npMin]; exact List.mem_cons_of_mem x h1

lemma npMin_le {l : List Nat} {a : Nat} (ha : a ∈ l) : npMin l ≤ a := by
  match l with
  | [] => cases ha
  | x :: xs =>
    rcases List.mem_cons.mp ha with h1 | h1
    · subst h1; exact foldl_min_le_init xs a
    · exact foldl_min_le_mem xs x a h1

lemma npMax_mem {l : List Nat} (h : l ≠ []) : npMax l ∈ l := by
  match l with
  | [] => exact absurd rfl h
  | x :: xs =>
    rcases foldl_max_eq_init_or_mem xs x with h1 | h1
    · rw [npMax, h1]; exact List.mem_cons_self x xs
    · rw [npMax]; exact List.mem_cons_of_mem x h1

lemma le_npMax {l : List Nat} {a : Nat} (ha : a ∈ l) : a ≤ npMax l := by
  match l with
  | [] => cases ha
  | x :: xs =>
    rcases List.mem_cons.mp ha with h1 | h1
    · subst h1; exact init_le_foldl_max xs a
    · exact mem_le_foldl_max xs x a h1

lemma listIndex_lt_length {a : Nat} {l : List Nat} (h : a ∈ l) :
    listIndex a l < l.length := by
  induction l with
  | nil => cases h
  | cons x xs ih =>
    by_cases hx : x = a
    · simp [listIndex, hx]
    · rcases List.mem_cons.mp h with h1 | h1
      · exact absurd h1.symm hx
      · simpa [listIndex, hx] using ih h1

lemma getD_listIndex {a : Nat} {l : List Nat} (h : a ∈ l) (d : Nat) :
    l.getD (listIndex a l) d = a := by
  induction l with
  | nil => cases h
  | cons x xs ih =>
    by_cases hx : x = a
    · simp [listIndex, hx]
    · rcases List.mem_cons.mp h with h1 | h1
      · exact absurd h1.symm hx
      · simpa [listIndex, hx] using ih h1

lemma getD_ne_of_lt_listIndex {a : Nat} {l : List Nat} {j : Nat}
    (hj : j < listIndex a l) (d : Nat) : l.getD j d ≠ a := by
  induction l generalizing j with
  | nil => simp [listIndex] at hj
  | cons x xs ih =>
    by_cases hx : x = a
    · simp [listIndex, hx] at hj
    · cases j with
      | zero => simpa using hx
      | succ j =>
        simp only [List.getD_cons_succ]
        refine ih ?_
        simpa [listIndex, hx] using hj

lemma nearestRank50_lt {n : Nat} (h : 1 ≤ n) : nearestRank50 n < n := by
  unfold nearestRank50
  split
  · omega
  · split <;> omega

lemma percentile50Nearest_mem {xs : List Nat} (h : xs ≠ []) :
    percentile50Nearest xs ∈ xs := by
  have hperm := List.perm_insertionSort (· ≤ ·) xs
  have hlen : (List.insertionSort (· ≤ ·) xs).length = xs.length := hperm.length_eq
  have hn : 1 ≤ xs.length := List.length_pos.mpr h
  have hidx : nearestRank50 xs.length < (List.insertionSort (· ≤ ·) xs).length := by
    rw [hlen]; exact nearestRank50_lt hn
  have hm : percentile50Nearest xs ∈ List.insertionSort (· ≤ ·) xs :=
    getD_mem hidx 0
  exact hperm.mem_iff.mp hm



lemma card_chanSet_getD (L : List MoveList) (chan : Nat) {j : Nat}
    (hj : j < L.length) :
    (chanSet (L.getD j []) chan).card = (mlSizes L chan).getD j 0 := by
  induction L generalizing j with
  | nil => simp at hj
  | cons ml rest ih =>
    cases j with
    | zero => simp [mlSizes]
    | succ j =>
      simp only [List.getD_cons_succ, mlSizes, List.map_cons]
      exact ih (by simpa using hj)

lemma effNum_pos (L : List MoveList) (num0 : Nat) (hL : L ≠ []) :
    1 ≤ effNum L num0 := by
  unfold effNum
  split
  · exact List.length_pos.mpr hL
  · omega

lemma effNum_le (L : List MoveList) {num0 : Nat} (h : num0 ≤ L.length) :
    effNum L num0 ≤ L.length := by
  unfold effNum
  split <;> omega

lemma effNum_of_pos (L : List MoveList) {num0 : Nat} (h : 1 ≤ num0) :
    effNum L num0 = num0 := by
  unfold effNum
  split <;> omega

lemma sizeWindow_length (L : List MoveList) (chan : Nat) {num0 : Nat}
    (h : num0 ≤ L.length) :
    (sizeWindow L chan num0).length = effNum L num0 := by
  have hlen : (mlSizes L chan).length = L.length := by simp [mlSizes]
  simp only [sizeWindow, List.length_take, hlen]
  have := effNum_le L h
  omega

lemma sizeWindow_ne_nil (L : List MoveList) (chan num0 : Nat) (hL : L ≠ [])
    (h : num0 ≤ L.length) : sizeWindow L chan num0 ≠ [] := by
  have h1 := sizeWindow_length L chan h
  have h2 := effNum_pos L num0 hL
  intro hc
  rw [hc] at h1
  simp at h1
  omega

lemma sizeWindow_getD (L : List MoveList) (chan num0 : Nat) {j : Nat}
    (hj : j < effNum L num0) :
    (sizeWindow L chan num0).getD j 0 = (mlSizes L chan).getD j 0 :=
  getD_take hj 0

/-- Branch evaluation: a method starting with `med`, non-degenerate window. -/
lemma synth_eval_med (L : List MoveList) (method : String) (num0 chan : Nat)
    (h1 : pyStartsWith method "med" = true)
    (hw : sizeWindow L chan num0 ≠ []) :
    SyntheticMoveList L method num0 chan =
      .ok (L.getD (listIndex (percentile50Nearest (sizeWindow L chan num0))
        (mlSizes L chan)) []) := by
  have hw2 : ¬((mlSizes L chan).take (effNum L num0) = []) := hw
  simp only [SyntheticMoveList, h1, if_true, if_neg hw2]
  rfl

/-- Branch evaluation: a method starting with `max`, non-degenerate window. -/
lemma synth_eval_max (L : List MoveList) (method : String) (num0 chan : Nat)
    (h1 : pyStartsWith method "med" = false)
    (h2 : pyStartsWith method "max" = true)
    (hw : sizeWindow L chan num0 ≠ []) :
    SyntheticMoveList L method num0 chan =
      .ok (L.getD (listIndex (npMax (sizeWindow L chan num0))
        (sizeWindow L chan num0)) []) := by
  have hw2 : ¬((mlSizes L chan).take (effNum L num0) = []) := hw
  simp only [SyntheticMoveList, h1, h2, Bool.false_eq_true, if_false, if_true,
    if_neg hw2]
  rfl

/-- Branch evaluation: a method starting with `min`, non-degenerate window. -/
lemma synth_eval_min (L : List MoveList) (method : String) (num0 chan : Nat)
    (h1 : pyStartsWith method "med" = false)
    (h2 : pyStartsWith method "max" = false)
    (h3 : pyStartsWith method "min" = true)
    (hw : sizeWindow L chan num0 ≠ []) :
    SyntheticMoveList L method num0 chan =
      .ok (L.getD (listIndex (npMin (sizeWindow L chan num0))
        (sizeWindow L chan num0)) []) := by
  have hw2 : ¬((mlSizes L chan).take (effNum L num0) = []) := hw
  simp only [SyntheticMoveList, h1, h2, h3, Bool.false_eq_true, if_false,
    if_true, if_neg hw2]
  rfl

/-- Branch evaluation: a method starting with `int`, valid window bound. -/
lemma synth_eval_int (L : List MoveList) (method : String) (num0 chan : Nat)
    (h1 : pyStartsWith method "med" = false)
    (h2 : pyStartsWith method "max" = false)
    (h3 : pyStartsWith method "min" = false)
    (h4 : pyStartsWith method "int" = true)
    (hL : L ≠ []) (hnum : effNum L num0 ≤ L.length) :
    SyntheticMoveList L method num0 chan =
      .ok ((List.range (L.headD []).length).map fun ch =>
        interAll ((List.range (effNum L num0)).map fun k =>
          chanSet (L.getD k []) ch)) := by
  obtain ⟨ml0, rest, rfl⟩ := List.exists_cons_of_ne_nil hL
  have hnum2 : ¬((ml0 :: rest).length < effNum (ml0 :: rest) num0) := by omega
  simp only [SyntheticMoveList, h1, h2, h3, h4, Bool.false_eq_true, if_false,
    if_true, if_neg hnum2, List.headD_cons]



/-- The min method picks the first window run of minimal per-channel size. -/
lemma synth_min_props (L : List MoveList) (chan num0 : Nat) (hL : L ≠ [])
    (hn : num0 ≤ L.length) :
    ∃ i, SyntheticMoveList L "min" num0 chan = .ok (L.getD i []) ∧
      i < effNum L num0 ∧
      (mlSizes L chan).getD i 0 = npMin (sizeWindow L chan num0) ∧
      (∀ j, j < i → (mlSizes L chan).getD j 0 ≠ npMin (sizeWindow L chan num0)) := by
  have hw := sizeWindow_ne_nil L chan num0 hL hn
  have hwl := sizeWindow_length L chan hn
  have hmem := npMin_mem hw
  have hidx := listIndex_lt_length hmem
  refine ⟨listIndex (npMin (sizeWindow L chan num0)) (sizeWindow L chan num0),
    synth_eval_min L "min" num0 chan rfl rfl rfl hw, by omega, ?_, ?_⟩
  · rw [← sizeWindow_getD L chan num0 (by omega)]
    exact getD_listIndex hmem 0
  · intro j hj
    rw [← sizeWindow_getD L chan num0 (by omega)]
    exact getD_ne_of_lt_listIndex hj 0

/-- The max method picks the first window run of maximal per-channel size. -/
lemma synth_max_props (L : List MoveList) (chan num0 : Nat) (hL : L ≠ [])
    (hn : num0 ≤ L.length) :
    ∃ i, SyntheticMoveList L "max" num0 chan = .ok (L.getD i []) ∧
      i < effNum L num0 ∧
      (mlSizes L chan).getD i 0 = npMax (sizeWindow L chan num0) ∧
      (∀ j, j < i → (mlSizes L chan).getD j 0 ≠ npMax (sizeWindow L chan num0)) := by
  have hw := sizeWindow_ne_nil L chan num0 hL hn
  have hwl := sizeWindow_length L chan hn
  have hmem := npMax_mem hw
  have hidx := listIndex_lt_length hmem
  refine ⟨listIndex (npMax (sizeWindow L chan num0)) (sizeWindow L chan num0),
    synth_eval_max L "max" num0 chan rfl rfl hw, by omega, ?_, ?_⟩
  · rw [← sizeWindow_getD L chan num0 (by omega)]
    exact getD_listIndex hmem 0
  · intro j hj
    rw [← sizeWindow_getD L chan num0 (by omega)]
    exact getD_ne_of_lt_listIndex hj 0

/-- The median method picks the first run (in full collection order) whose
size equals the nearest-rank 50th percentile of the window sizes. -/
lemma synth_med_props (L : List MoveList) (method : String) (chan num0 : Nat)
    (hm : pyStartsWith method "med" = true) (hL : L ≠ [])
    (hn : num0 ≤ L.length) :
    ∃ i, SyntheticMoveList L method num0 chan = .ok (L.getD i []) ∧
      i < L.length ∧
      (mlSizes L chan).getD i 0 = percentile50Nearest (sizeWindow L chan num0) ∧
      (∀ j, j < i →
        (mlSizes L chan).getD j 0 ≠ percentile50Nearest (sizeWindow L chan num0)) := by
  have hw := sizeWindow_ne_nil L chan num0 hL hn
  have hv : percentile50Nearest (sizeWindow L chan num0) ∈ sizeWindow L chan num0 :=
    percentile50Nearest_mem hw
  have hv2 : percentile50Nearest (sizeWindow L chan num0) ∈ mlSizes L chan :=
    List.mem_of_mem_take hv
  have hidx := listIndex_lt_length hv2
  have hlen : (mlSizes L chan).length = L.length := by simp [mlSizes]
  refine ⟨listIndex (percentile50Nearest (sizeWindow L chan num0)) (mlSizes L chan),
    synth_eval_med L method num0 chan hm hw, by omega, ?_, ?_⟩
  · exact getD_listIndex hv2 0
  · intro j hj
    exact getD_ne_of_lt_listIndex hj 0



lemma foldl_inter_subset_init (l : List (Finset Grant)) (s : Finset Grant) :
    l.foldl (· ∩ ·) s ⊆ s := by
  induction l generalizing s with
  | nil => exact fun a ha => ha
  | cons y ys ih =>
    intro a ha
    have := ih (s ∩ y) ha
    exact (Finset.mem_inter.mp this).1

lemma foldl_inter_subset_mem (l : List (Finset Grant)) (s : Finset Grant) :
    ∀ t ∈ l, l.foldl (· ∩ ·) s ⊆ t := by
  induction l generalizing s with
  | nil => intro t ht; cases ht
  | cons y ys ih =>
    intro t ht
    rcases List.mem_cons.mp ht with h | h
    · subst h
      intro a ha
      exact (Finset.mem_inter.mp (foldl_inter_subset_init ys (s ∩ t) ha)).2
    · exact ih (s ∩ y) t h

lemma interAll_subset {l : List (Finset Grant)} {t : Finset Grant} (ht : t ∈ l) :
    interAll l ⊆ t := by
  match l with
  | [] => cases ht
  | s :: rest =>
    rcases List.mem_cons.mp ht with h | h
    · subst h
      exact foldl_inter_subset_init rest t
    · exact foldl_inter_subset_mem rest s t h

/-- C1: with method `min`, `SyntheticMoveList` returns the move list of the
first run among the first `w` runs whose channel set has smallest
cardinality (so its size is below every window run), and with `max` the
first run attaining the largest cardinality. -/
theorem syntheticMoveList_min_max_extremal (L : List MoveList) (chan w : Nat)
    (hL : L ≠ []) (hw1 : 1 ≤ w) (hw : w ≤ L.length)
    (hchan : ∀ ml ∈ L, chan < ml.length) :
    (∃ i, i < w ∧ SyntheticMoveList L "min" w chan = .ok (L.getD i []) ∧
      (∀ j, j < w →
        (chanSet (L.getD i []) chan).card ≤ (chanSet (L.getD j []) chan).card) ∧
      (∀ j, j < i →
        (chanSet (L.getD j []) chan).card ≠ (chanSet (L.getD i []) chan).card)) ∧
    (∃ i, i < w ∧ SyntheticMoveList L "max" w chan = .ok (L.getD i []) ∧
      (∀ j, j < w →
        (chanSet (L.getD j []) chan).card ≤ (chanSet (L.getD i []) chan).card) ∧
      (∀ j, j < i →
        (chanSet (L.getD j []) chan).card ≠ (chanSet (L.getD i []) chan).card)) := by
  have heff : effNum L w = w := effNum_of_pos L hw1
  have hwl : (sizeWindow L chan w).length = w := by
    rw [sizeWindow_length L chan hw, heff]
  constructor
  · obtain ⟨i, hok, hlt, hsz, htie⟩ := synth_min_props L chan w hL hw
    rw [heff] at hlt
    have hiL : i < L.length := lt_of_lt_of_le hlt hw
    refine ⟨i, hlt, hok, ?_, ?_⟩
    · intro j hj
      have hjL : j < L.length := lt_of_lt_of_le hj hw
      rw [card_chanSet_getD L chan hiL, card_chanSet_getD L chan hjL, hsz,
        ← sizeWindow_getD L chan w (by omega)]
      exact npMin_le (getD_mem (by omega) 0)
    · intro j hj
      have hjL : j < L.length := by omega
      rw [card_chanSet_getD L chan hjL, card_chanSet_getD L chan hiL, hsz]
      exact htie j hj
  · obtain ⟨i, hok, hlt, hsz, htie⟩ := synth_max_props L chan w hL hw
    rw [heff] at hlt
    have hiL : i < L.length := lt_of_lt_of_le hlt hw
    refine ⟨i, hlt, hok, ?_, ?_⟩
    · intro j hj
      have hjL : j < L.length := lt_of_lt_of_le hj hw
      rw [card_chanSet_getD L chan hiL, card_chanSet_getD L chan hjL, hsz,
        ← sizeWindow_getD L chan w (by omega)]
      exact le_npMax (getD_mem (by omega) 0)
    · intro j hj
      have hjL : j < L.length := by omega
      rw [card_chanSet_getD L chan hjL, card_chanSet_getD L chan hiL, hsz]
      exact htie j hj

/-- Witness for C1: Scenario 1 of the spec (sizes 3,5,2,5,4, window 5). -/
theorem syntheticMoveList_min_max_extremal_witness :
    (∃ i, i < 5 ∧ SyntheticMoveList scenarioRuns "min" 5 0 = .ok (scenarioRuns.getD i []) ∧
      (∀ j, j < 5 →
        (chanSet (scenarioRuns.getD i []) 0).card ≤ (chanSet (scenarioRuns.getD j []) 0).card) ∧
      (∀ j, j < i →
        (chanSet (scenarioRuns.getD j []) 0).card ≠ (chanSet (scenarioRuns.getD i []) 0).card)) ∧
    (∃ i, i < 5 ∧ SyntheticMoveList scenarioRuns "max" 5 0 = .ok (scenarioRuns.getD i []) ∧
      (∀ j, j < 5 →
        (chanSet (scenarioRuns.getD j []) 0).card ≤ (chanSet (scenarioRuns.getD i []) 0).card) ∧
      (∀ j, j < i →
        (chanSet (scenarioRuns.getD j []) 0).card ≠ (chanSet (scenarioRuns.getD i []) 0).card)) :=
  syntheticMoveList_min_max_extremal scenarioRuns 0 5 (by decide) (by decide)
    (by decide) (by decide)

/-- C2: with method `median` (or `med`), `SyntheticMoveList` computes the
nearest-rank 50th percentile of the window sizes and returns the first run,
in original collection order, whose channel-set size equals that value; on
Scenario 1 (sizes 3,5,2,5,4, window 5) the median value is 4 and run index 4
is selected. -/
theorem syntheticMoveList_median_nearest_rank (L : List MoveList)
    (method : String) (chan w : Nat) (hm : method = "median" ∨ method = "med")
    (hL : L ≠ []) (hw : w ≤ L.length) (hchan : ∀ ml ∈ L, chan < ml.length) :
    (∃ i, i < L.length ∧ SyntheticMoveList L method w chan = .ok (L.getD i []) ∧
      (chanSet (L.getD i []) chan).card = percentile50Nearest (sizeWindow L chan w) ∧
      (∀ j, j < i →
        (chanSet (L.getD j []) chan).card ≠ percentile50Nearest (sizeWindow L chan w))) ∧
    SyntheticMoveList scenarioRuns "median" 5 0 = .ok (scenarioRuns.getD 4 []) ∧
    (chanSet (scenarioRuns.getD 4 []) 0).card = 4 ∧
    percentile50Nearest (sizeWindow scenarioRuns 0 5) = 4 := by
  have hsw : pyStartsWith method "med" = true := by
    rcases hm with rfl | rfl <;> decide
  obtain ⟨i, hok, hlt, hsz, htie⟩ := synth_med_props L method chan w hsw hL hw
  refine ⟨⟨i, hlt, hok, ?_, ?_⟩, by decide, by decide, by decide⟩
  · rw [card_chanSet_getD L chan hlt]
    exact hsz
  · intro j hj
    have hjL : j < L.length := by omega
    rw [card_chanSet_getD L chan hjL]
    exact htie j hj

/-- Witness for C2 at Scenario 1. -/
theorem syntheticMoveList_median_nearest_rank_witness :
    (∃ i, i < scenarioRuns.length ∧
      SyntheticMoveList scenarioRuns "median" 5 0 = .ok (scenarioRuns.getD i []) ∧
      (chanSet (scenarioRuns.getD i []) 0).card =
        percentile50Nearest (sizeWindow scenarioRuns 0 5) ∧
      (∀ j, j < i →
        (chanSet (scenarioRuns.getD j []) 0).card ≠
          percentile50Nearest (sizeWindow scenarioRuns 0 5))) ∧
    SyntheticMoveList scenarioRuns "median" 5 0 = .ok (scenarioRuns.getD 4 []) ∧
    (chanSet (scenarioRuns.getD 4 []) 0).card = 4 ∧
    percentile50Nearest (sizeWindow scenarioRuns 0 5) = 4 :=
  syntheticMoveList_median_nearest_rank scenarioRuns "median" 0 5 (Or.inl rfl)
    (by decide) (by decide) (by decide)

/-- C9: for a fixed collection, channel and window, the synthesized
channel-set size is monotone in the method: `min` is below `median` is
below `max`. -/
theorem syntheticMoveList_method_monotone (L : List MoveList) (chan w : Nat)
    (hL : L ≠ []) (hw : w ≤ L.length) (hchan : ∀ ml ∈ L, chan < ml.length) :
    ∃ a b c, SyntheticMoveList L "min" w chan = .ok a ∧
      SyntheticMoveList L "median" w chan = .ok b ∧
      SyntheticMoveList L "max" w chan = .ok c ∧
      (chanSet a chan).card ≤ (chanSet b chan).card ∧
      (chanSet b chan).card ≤ (chanSet c chan).card := by
  have hwne := sizeWindow_ne_nil L chan w hL hw
  obtain ⟨i, hoki, hlti, hszi, _⟩ := synth_min_props L chan w hL hw
  obtain ⟨m, hokm, hltm, hszm, _⟩ := synth_med_props L "median" chan w (by decide) hL hw
  obtain ⟨x, hokx, hltx, hszx, _⟩ := synth_max_props L chan w hL hw
  have hiL : i < L.length := lt_of_lt_of_le hlti (effNum_le L hw)
  have hxL : x < L.length := lt_of_lt_of_le hltx (effNum_le L hw)
  have hp50 : percentile50Nearest (sizeWindow L chan w) ∈ sizeWindow L chan w :=
    percentile50Nearest_mem hwne
  refine ⟨_, _, _, hoki, hokm, hokx, ?_, ?_⟩
  · rw [card_chanSet_getD L chan hiL, card_chanSet_getD L chan hltm, hszi, hszm]
    exact npMin_le hp50
  · rw [card_chanSet_getD L chan hltm, card_chanSet_getD L chan hxL, hszm, hszx]
    exact le_npMax hp50

/-- Witness for C9 at Scenario 1. -/
theorem syntheticMoveList_method_monotone_witness :
    ∃ a b c, SyntheticMoveList scenarioRuns "min" 5 0 = .ok a ∧
      SyntheticMoveList scenarioRuns "median" 5 0 = .ok b ∧
      SyntheticMoveList scenarioRuns "max" 5 0 = .ok c ∧
      (chanSet a 0).card ≤ (chanSet b 0).card ∧
      (chanSet b 0).card ≤ (chanSet c 0).card :=
  syntheticMoveList_method_monotone scenarioRuns 0 5 (by decide) (by decide)
    (by decide)

/-- C8: with method `intersection` (or `inter`), `SyntheticMoveList` returns
for each channel the intersection of the first `w` runs channel sets, hence
a subset of every constituent run's channel set. -/
theorem syntheticMoveList_intersection_subset (L : List MoveList)
    (method : String) (chan w : Nat)
    (hm : method = "intersection" ∨ method = "inter")
    (hL : L ≠ []) (hw1 : 1 ≤ w) (hw : w ≤ L.length)
    (hchan : chan < (L.headD []).length) :
    ∃ r, SyntheticMoveList L method w chan = .ok r ∧
      (∀ ch, ch < (L.headD []).length →
        chanSet r ch = interAll ((List.range w).map fun k =>
          chanSet (L.getD k []) ch)) ∧
      (∀ k, k < w → chanSet r chan ⊆ chanSet (L.getD k []) chan) := by
  have h1 : pyStartsWith method "med" = false := by rcases hm with rfl | rfl <;> decide
  have h2 : pyStartsWith method "max" = false := by rcases hm with rfl | rfl <;> decide
  have h3 : pyStartsWith method "min" = false := by rcases hm with rfl | rfl <;> decide
  have h4 : pyStartsWith method "int" = true := by rcases hm with rfl | rfl <;> decide
  have heff : effNum L w = w := effNum_of_pos L hw1
  have heval := synth_eval_int L method w chan h1 h2 h3 h4 hL (by omega)
  rw [heff] at heval
  refine ⟨_, heval, ?_, ?_⟩
  · intro ch hch
    exact getD_map_range _ hch ∅
  · intro k hk
    have hch := getD_map_range
      (fun ch => interAll ((List.range w).map fun k => chanSet (L.getD k []) ch))
      hchan (∅ : Finset Grant)
    show chanSet _ chan ⊆ _
    rw [chanSet, hch]
    refine interAll_subset ?_
    exact List.mem_map.mpr ⟨k, List.mem_range.mpr hk, rfl⟩

/-- Witness for C8 at Scenario 1 with window 3. -/
theorem syntheticMoveList_intersection_subset_witness :
    ∃ r, SyntheticMoveList scenarioRuns "intersection" 3 0 = .ok r ∧
      (∀ ch, ch < (scenarioRuns.headD []).length →
        chanSet r ch = interAll ((List.range 3).map fun k =>
          chanSet (scenarioRuns.getD k []) ch)) ∧
      (∀ k, k < 3 → chanSet r 0 ⊆ chanSet (scenarioRuns.getD k []) 0) :=
  syntheticMoveList_intersection_subset scenarioRuns "intersection" 0 3
    (Or.inl rfl) (by decide) (by decide) (by decide) (by decide)



/-- Every recognized statistic method synthesizes successfully on a
non-degenerate window. -/
lemma synth_ok_of_valid (L : List MoveList) (method : String) (num0 chan : Nat)
    (hm : method = "min" ∨ method = "max" ∨ method = "median" ∨ method = "med" ∨
      method = "intersection" ∨ method = "inter")
    (hL : L ≠ []) (hn : num0 ≤ L.length) :
    ∃ ml, SyntheticMoveList L method num0 chan = .ok ml := by
  have hw := sizeWindow_ne_nil L chan num0 hL hn
  rcases hm with rfl | rfl | rfl | rfl | rfl | rfl
  · exact ⟨_, synth_eval_min L "min" num0 chan rfl rfl rfl hw⟩
  · exact ⟨_, synth_eval_max L "max" num0 chan rfl rfl hw⟩
  · exact ⟨_, synth_eval_med L "median" num0 chan rfl hw⟩
  · exact ⟨_, synth_eval_med L "med" num0 chan rfl hw⟩
  · exact ⟨_, synth_eval_int L "intersection" num0 chan rfl rfl rfl rfl hL
      (effNum_le L hn)⟩
  · exact ⟨_, synth_eval_int L "inter" num0 chan rfl rfl rfl rfl hL
      (effNum_le L hn)⟩

/-- When synthesis succeeds at every index of `ks`, the check loop succeeds
and assigns, in order, exactly the move list synthesized at each index. -/
lemma extLoop_ok {α : Type} (check : Nat → MoveList → Bool × List (α × α))
    (ref : List MoveList) (num0 : Nat) (method : String) (chan : Nat)
    (ks : List Nat)
    (h : ∀ k ∈ ks, ∃ ml, SyntheticMoveList (ref.drop k) method num0 chan = .ok ml) :
    ∀ succ mls refs diffs, ∃ succ2 refs2 diffs2,
      extLoop check ref num0 method chan ks succ mls refs diffs =
        .ok (succ2, mls ++ ks.map (fun k =>
          (SyntheticMoveList (ref.drop k) method num0 chan).toOption.getD []),
          refs2, diffs2) := by
  induction ks with
  | nil =>
    intro succ mls refs diffs
    exact ⟨succ, refs, diffs, by simp [extLoop]⟩
  | cons k ks ih =>
    intro succ mls refs diffs
    obtain ⟨ml, hml⟩ := h k (List.mem_cons_self k ks)
    have hrest : ∀ k2 ∈ ks,
        ∃ ml, SyntheticMoveList (ref.drop k2) method num0 chan = .ok ml :=
      fun k2 hk2 => h k2 (List.mem_cons_of_mem k hk2)
    obtain ⟨succ2, refs2, diffs2, heq⟩ := ih hrest
      (succ + if (check k ml).1 then 1 else 0) (mls ++ [ml])
      (refs ++ ((check k ml).2.map Prod.fst))
      (diffs ++ ((check k ml).2.map Prod.snd))
    have hstep : extLoop check ref num0 method chan (k :: ks) succ mls refs diffs =
        extLoop check ref num0 method chan ks
          (succ + if (check k ml).1 then 1 else 0) (mls ++ [ml])
          (refs ++ ((check k ml).2.map Prod.fst))
          (diffs ++ ((check k ml).2.map Prod.snd)) := by
      rw [extLoop, hml]
    have hfk : (SyntheticMoveList (ref.drop k) method num0 chan).toOption.getD [] = ml := by
      rw [hml]; rfl
    refine ⟨succ2, refs2, diffs2, ?_⟩
    rw [hstep, heq, List.map_cons, hfk]
    simp

/-- C3 (observed behaviour): on an empty `ref_move_lists` the loop body never
runs, `num_check = 0`, and the success-rate print raises ZeroDivisionError. -/
theorem extensiveInterferenceCheck_empty_divzero {α : Type}
    (check : Nat → MoveList → Bool × List (α × α)) (method : String) (chan : Nat) :
    ExtensiveInterferenceCheck check [] 0 method chan = .error .zeroDivision := rfl

/-- C4: with a recognized method and `max(w,1) ≤ n` runs, the extensive check
performs exactly `n - max(w,1) + 1` checks, the k-th on the move list
synthesized from the sub-collection starting at k. -/
theorem extensiveInterferenceCheck_count {α : Type}
    (check : Nat → MoveList → Bool × List (α × α))
    (ref : List MoveList) (w : Nat) (method : String) (chan : Nat)
    (hm : method = "min" ∨ method = "max" ∨ method = "median" ∨ method = "med" ∨
      method = "intersection" ∨ method = "inter")
    (hn : max w 1 ≤ ref.length) :
    ∃ r, ExtensiveInterferenceCheck check ref w method chan = .ok r ∧
      r.checkedMls.length = ref.length - max w 1 + 1 ∧
      r.numCheck = ((ref.length - max w 1 + 1 : Nat) : Int) ∧
      ∀ k, k < ref.length - max w 1 + 1 →
        SyntheticMoveList (ref.drop k) method w chan = .ok (r.checkedMls.getD k []) := by
  have hsucc : ∀ k ∈ List.range (ref.length - max w 1 + 1),
      ∃ ml, SyntheticMoveList (ref.drop k) method w chan = .ok ml := by
    intro k hk
    have hk2 : k < ref.length - max w 1 + 1 := List.mem_range.mp hk
    have hdlen : (ref.drop k).length = ref.length - k := List.length_drop k ref
    have hdropne : ref.drop k ≠ [] := by
      intro hc
      rw [hc] at hdlen
      simp at hdlen
      omega
    have hwle : w ≤ (ref.drop k).length := by omega
    exact synth_ok_of_valid (ref.drop k) method w chan hm hdropne hwle
  obtain ⟨succ2, refs2, diffs2, hloop⟩ := extLoop_ok check ref w method chan
    (List.range (ref.length - max w 1 + 1)) hsucc 0 [] [] []
  rw [List.nil_append] at hloop
  have harg : ((ref.length : Int) - (if w = 0 then 1 else w) + 1).toNat =
      ref.length - max w 1 + 1 := by
    split <;> omega
  have hne : ((ref.length : Int) - (if w = 0 then 1 else w) + 1) ≠ 0 := by
    split <;> omega
  have hval : ((ref.length : Int) - (if w = 0 then 1 else w) + 1) =
      ((ref.length - max w 1 + 1 : Nat) : Int) := by
    split <;> omega
  have heval : ExtensiveInterferenceCheck check ref w method chan =
      (if ((ref.length : Int) - (if w = 0 then 1 else w) + 1) = 0 then
        .error .zeroDivision
      else .ok ⟨succ2, (ref.length : Int) - (if w = 0 then 1 else w) + 1,
        (List.range (ref.length - max w 1 + 1)).map (fun k =>
          (SyntheticMoveList (ref.drop k) method w chan).toOption.getD []),
        refs2, diffs2⟩) := by
    simp only [ExtensiveInterferenceCheck, harg]
    rw [hloop]
  rw [if_neg hne] at heval
  refine ⟨_, heval, ?_, ?_, ?_⟩
  · simp
  · simpa using hval
  · intro k hk
    have hgd : ((List.range (ref.length - max w 1 + 1)).map (fun k =>
        (SyntheticMoveList (ref.drop k) method w chan).toOption.getD [])).getD k [] =
        (SyntheticMoveList (ref.drop k) method w chan).toOption.getD [] :=
      getD_map_range _ hk []
    obtain ⟨ml, hml⟩ := hsucc k (List.mem_range.mpr hk)
    show SyntheticMoveList (ref.drop k) method w chan = .ok _
    rw [hgd, hml]
    rfl

/-- Witness for C4: Scenario 3 of the spec — 10 runs, window 3, 8 checks. -/
theorem extensiveInterferenceCheck_count_witness :
    ∃ r, ExtensiveInterferenceCheck (fun _ _ => (false, ([] : List (Nat × Nat))))
        (List.replicate 10 [({0} : Finset Grant)]) 3 "max" 0 = .ok r ∧
      r.checkedMls.length = 8 ∧
      r.numCheck = ((8 : Nat) : Int) ∧
      ∀ k, k < 8 →
        SyntheticMoveList ((List.replicate 10 [({0} : Finset Grant)]).drop k) "max" 3 0 =
          .ok (r.checkedMls.getD k []) :=
  extensiveInterferenceCheck_count (fun _ _ => (false, ([] : List (Nat × Nat))))
    (List.replicate 10 [({0} : Finset Grant)]) 3 "max" 0
    (Or.inr (Or.inl rfl)) (by decide)



/-- C5 (observed behaviour): a method string matching none of the recognized
prefixes reaches the fallback raise, where the `%d` specifier applied to the
method string makes message formatting raise TypeError, so the intended
ValueError never surfaces. -/
theorem syntheticMoveList_unknown_method_raises (L : List MoveList)
    (method : String) (num0 chan : Nat)
    (h1 : pyStartsWith method "med" = false)
    (h2 : pyStartsWith method "max" = false)
    (h3 : pyStartsWith method "min" = false)
    (h4 : pyStartsWith method "int" = false)
    (h5 : pyStartsWith method "idx" = false) :
    SyntheticMoveList L method num0 chan =
      .error (.typeError "%d format: a number is required, not str") := by
  simp only [SyntheticMoveList, h1, h2, h3, h4, h5, Bool.false_eq_true, if_false]

/-- Witness for C5: the unrecognized method string `quantile`. -/
theorem syntheticMoveList_unknown_method_raises_witness :
    SyntheticMoveList scenarioRuns "quantile" 5 0 =
      .error (.typeError "%d format: a number is required, not str") :=
  syntheticMoveList_unknown_method_raises scenarioRuns "quantile" 5 0
    rfl rfl rfl rfl rfl

/-- C6 counterexample: a config file carrying zero grants makes the
reconciliation stage fail with the missing-data ValueError although the log
neighbor list — an available grant source — is non-empty. -/
theorem dpaLogReconcile_counterexample :
    DpaLogReconcile id (some []) [0] [] [] ∅ =
      .error (.valueError "No grants specified - use a valid config file.") ∧
    ([0] : List Grant) ≠ [] := by
  constructor
  · rfl
  · decide

/-- C6 amended: the reconciliation stage fails with the missing-data
condition exactly when its selected grant source is empty — the config
grants when a config file is given, otherwise the log neighbor list — and
when grants are available while the log neighbor list is empty and the log
UUT keep list non-empty, it succeeds, reports no-peers and does not compute
the reference move list. -/
theorem dpaLogReconcile_characterization (clean : Grant → Grant)
    (cfg : Option (List Grant)) (nbor keep uut : List Grant)
    (calcNbor : Finset Grant) :
    ((∃ r, DpaLogReconcile clean cfg nbor keep uut calcNbor = .ok r) ↔
      (match cfg with | some gs => gs | none => nbor) ≠ []) ∧
    (∀ gs, cfg = some gs → gs ≠ [] → nbor = [] → uut ≠ [] →
      ∃ r, DpaLogReconcile clean cfg nbor keep uut calcNbor = .ok r ∧
        r.noPeers = true ∧ r.refMoveList = none) := by
  constructor
  · cases cfg with
    | none =>
      simp only [DpaLogReconcile]
      split
      · rename_i h
        simp only [h, ne_eq, not_true_eq_false, iff_false, not_exists]
        intro r hr
        exact Except.noConfusion hr
      · rename_i h
        constructor
        · intro _
          exact h
        · intro _
          exact ⟨_, rfl⟩
    | some gs0 =>
      simp only [DpaLogReconcile]
      split
      · rename_i h
        have h0 : gs0 = [] := List.map_eq_nil_iff.mp h
        simp only [h0, ne_eq, not_true_eq_false, iff_false, not_exists]
        intro r hr
        exact Except.noConfusion hr
      · rename_i h
        constructor
        · intro _ hc
          rw [hc] at h
          simp at h
        · intro _
          exact ⟨_, rfl⟩
  · intro gs hgs hgs2 hnbor huut
    cases hgs
    subst hnbor
    have hmap : gs.map clean ≠ [] := by
      intro hc
      exact hgs2 (List.map_eq_nil_iff.mp hc)
    have huutfin : (uut.map clean).toFinset ≠ (∅ : Finset Grant) := by
      intro hc
      exact huut (List.map_eq_nil_iff.mp (List.toFinset_eq_empty_iff _ |>.mp hc))
    simp only [DpaLogReconcile, if_neg hmap]
    refine ⟨_, rfl, ?_, ?_⟩
    · simp [huutfin]
    · simp

/-- Witness for C6 (amended): one concrete config grant, empty log neighbor
list and one UUT keep entry — success with the no-peer flag and no
reference move list. -/
theorem dpaLogReconcile_characterization_witness :
    ∃ r, DpaLogReconcile id (some [5]) [] [] [7] ∅ = .ok r ∧
      r.noPeers = true ∧ r.refMoveList = none :=
  (dpaLogReconcile_characterization id (some [5]) [] [] [7] ∅).2 [5] rfl
    (by decide) rfl (by decide)

/-- `pyLookup` only returns pairs of the list. -/
lemma pyLookup_mem {l : List (String × String)} {k v : String}
    (hv : pyLookup k l = some v) : (k, v) ∈ l := by
  induction l with
  | nil => exact Option.noConfusion hv
  | cons x xs ih =>
    obtain ⟨a, b⟩ := x
    rw [pyLookup] at hv
    by_cases hk : a = k
    · rw [if_pos hk] at hv
      have hb : b = v := Option.some.inj hv
      subst hk
      subst hb
      exact List.mem_cons_self _ _
    · rw [if_neg hk] at hv
      exact List.mem_cons_of_mem _ (ih hv)

/-- `translate_path` either refuses (401 and empty path) or serves the
configured mapping entry. -/
lemma translatePath_cases (auth : Bool) (fps hdrs : List (String × String))
    (p : String) :
    translatePath auth fps hdrs p = ⟨some 401, ""⟩ ∨
    translatePath auth fps hdrs p = ⟨none, (pyLookup p fps).getD ""⟩ := by
  unfold translatePath
  cases auth with
  | false =>
    right
    rfl
  | true =>
    simp only [if_true]
    cases pyLookup "Authorization" hdrs with
    | none =>
      left
      rfl
    | some v =>
      by_cases hv : v ≠ authorizationString
      · left
        show (if v ≠ authorizationString then (⟨some 401, ""⟩ : TranslateResult)
          else ⟨none, (pyLookup p fps).getD ""⟩) = ⟨some 401, ""⟩
        rw [if_pos hv]
      · right
        show (if v ≠ authorizationString then (⟨some 401, ""⟩ : TranslateResult)
          else ⟨none, (pyLookup p fps).getD ""⟩) = ⟨none, (pyLookup p fps).getD ""⟩
        rw [if_neg hv]

/-- C10: `translate_path` serves the configured mapping only: with
authorization enabled a missing or non-matching Authorization header yields
a 401 and the empty string; otherwise the result is the configured
`file_paths` entry for the exact request path (empty string when unmapped),
so every non-empty result comes from the configured mapping, never from the
URL itself. -/
theorem translatePath_spec (auth : Bool) (fps hdrs : List (String × String))
    (p : String) :
    (auth = true → pyLookup "Authorization" hdrs = none →
      translatePath auth fps hdrs p = ⟨some 401, ""⟩) ∧
    (auth = true → ∀ v, pyLookup "Authorization" hdrs = some v →
      v ≠ authorizationString → translatePath auth fps hdrs p = ⟨some 401, ""⟩) ∧
    ((auth = false ∨ pyLookup "Authorization" hdrs = some authorizationString) →
      translatePath auth fps hdrs p = ⟨none, (pyLookup p fps).getD ""⟩) ∧
    ((translatePath auth fps hdrs p).filePath ≠ "" →
      (p, (translatePath auth fps hdrs p).filePath) ∈ fps) := by
  refine ⟨?_, ?_, ?_, ?_⟩
  · intro ha hn
    subst ha
    simp only [translatePath, if_true, hn]
  · intro ha v hv hne
    subst ha
    simp only [translatePath, if_true, hv, if_pos hne]
  · intro h
    rcases h with ha | ha
    · subst ha
      simp only [translatePath, Bool.false_eq_true, if_false]
    · cases auth with
      | false => simp only [translatePath, Bool.false_eq_true, if_false]
      | true =>
        simp only [translatePath, if_true, ha]
        rw [if_neg (by simp)]
  · intro hne
    rcases translatePath_cases auth fps hdrs p with h | h
    · rw [h] at hne
      simp at hne
    · rw [h] at hne ⊢
      show (p, (pyLookup p fps).getD "") ∈ fps
      cases hfp : pyLookup p fps with
      | none =>
        rw [hfp] at hne
        simp at hne
      | some w =>
        simp only [Option.getD_some]
        exact pyLookup_mem hfp



/-- `max_diff_mw` is attained by one of the samples and dominates all. -/
lemma maxDiffMw_spec {samples : List (ℝ × ℝ)} (h : samples ≠ []) :
    ∃ s ∈ samples, maxDiffMw samples = deltaLinear s ∧
      ∀ s2 ∈ samples, deltaLinear s2 ≤ deltaLinear s := by
  obtain ⟨s0, rest, rfl⟩ := List.exists_cons_of_ne_nil h
  have hmax : maxDiffMw (s0 :: rest) =
      (rest.map deltaLinear).foldl max (deltaLinear s0) := rfl
  rcases foldl_max_eq_init_or_mem (rest.map deltaLinear) (deltaLinear s0)
    with h1 | h1
  · refine ⟨s0, List.mem_cons_self s0 rest, by rw [hmax, h1], ?_⟩
    intro s2 hs2
    rcases List.mem_cons.mp hs2 with rfl | hs2
    · exact le_refl _
    · calc deltaLinear s2 ≤ (rest.map deltaLinear).foldl max (deltaLinear s0) :=
            mem_le_foldl_max _ _ _ (List.mem_map_of_mem _ hs2)
        _ = deltaLinear s0 := h1
  · obtain ⟨s1, hs1, hds1⟩ := List.mem_map.mp h1
    refine ⟨s1, List.mem_cons_of_mem s0 hs1, by rw [hmax, hds1], ?_⟩
    intro s2 hs2
    rcases List.mem_cons.mp hs2 with rfl | hs2
    · rw [hds1]
      exact init_le_foldl_max _ _
    · rw [hds1]
      exact mem_le_foldl_max _ _ _ (List.mem_map_of_mem _ hs2)

/-- C7: `max_margin_db` is `Lin2Db` of the dominating sample's linear delta
plus the threshold in linear domain, renormalized to the threshold;
Scenario 2 (threshold −96 dBm, one sample at −100 dBm with +2 dB) pins the
value and places it strictly between 0 and 2 dB. -/
theorem scatterAnalyze_max_margin (samples : List (ℝ × ℝ)) (t : ℝ)
    (h : samples ≠ []) :
    (∃ s ∈ samples, maxMarginDb samples t =
        Lin2Db (deltaLinear s + Db2Lin t) - t ∧
      ∀ s2 ∈ samples, deltaLinear s2 ≤ deltaLinear s) ∧
    maxMarginDb [((-100 : ℝ), 2)] (-96) =
      Lin2Db (Db2Lin (-98) - Db2Lin (-100) + Db2Lin (-96)) - (-96) ∧
    0 < maxMarginDb [((-100 : ℝ), 2)] (-96) ∧
    maxMarginDb [((-100 : ℝ), 2)] (-96) < 2 := by
  have h10 : (1 : ℝ) < 10 := by norm_num
  have h10p : (0 : ℝ) < 10 := by norm_num
  have h10ne : (10 : ℝ) ≠ 1 := by norm_num
  -- the concrete sample list evaluates to the claimed linear delta
  have hval : maxDiffMw [((-100 : ℝ), 2)] = Db2Lin (-98) - Db2Lin (-100) := by
    have : ((-100 : ℝ) + 2) = -98 := by norm_num
    simp [maxDiffMw, deltaLinear, List.max?_cons, this]
  have heq : maxMarginDb [((-100 : ℝ), 2)] (-96) =
      Lin2Db (Db2Lin (-98) - Db2Lin (-100) + Db2Lin (-96)) - (-96) := by
    rw [maxMarginDb, hval]
  -- strict positivity of the linear delta
  have hd0 : 0 < Db2Lin (-98) - Db2Lin (-100) := by
    have hlt : Db2Lin (-100) < Db2Lin (-98) := by
      unfold Db2Lin
      rw [Real.rpow_lt_rpow_left_iff h10]
      norm_num
    linarith
  -- the linear delta is smaller than the corresponding delta two dB up
  have hub : Db2Lin (-98) - Db2Lin (-100) < Db2Lin (-94) - Db2Lin (-96) := by
    unfold Db2Lin
    have e1 : ((-98 : ℝ)) / 10 = (-100) / 10 + 2 / 10 := by norm_num
    have e2 : ((-94 : ℝ)) / 10 = (-96) / 10 + 2 / 10 := by norm_num
    rw [e1, e2, Real.rpow_add h10p, Real.rpow_add h10p]
    have hk : (1 : ℝ) < (10 : ℝ) ^ ((2 : ℝ) / 10) := by
      have h0 : (10 : ℝ) ^ (0 : ℝ) < (10 : ℝ) ^ ((2 : ℝ) / 10) := by
        rw [Real.rpow_lt_rpow_left_iff h10]
        norm_num
      rwa [Real.rpow_zero] at h0
    have hBC : (10 : ℝ) ^ ((-100 : ℝ) / 10) < (10 : ℝ) ^ ((-96 : ℝ) / 10) := by
      rw [Real.rpow_lt_rpow_left_iff h10]
      norm_num
    nlinarith [mul_pos (sub_pos.mpr hBC) (sub_pos.mpr hk)]
  -- positivity of the argument of the log
  have hc96 : (0 : ℝ) < Db2Lin (-96) := Real.rpow_pos_of_pos h10p _
  have hupos : (0 : ℝ) < Db2Lin (-98) - Db2Lin (-100) + Db2Lin (-96) := by
    linarith
  -- sandwich the logarithm between the two thresholds
  have hlow : Real.logb 10 (Db2Lin (-96)) <
      Real.logb 10 (Db2Lin (-98) - Db2Lin (-100) + Db2Lin (-96)) :=
    Real.logb_lt_logb h10 hc96 (by linarith)
  have hhigh : Real.logb 10 (Db2Lin (-98) - Db2Lin (-100) + Db2Lin (-96)) <
      Real.logb 10 (Db2Lin (-94)) :=
    Real.logb_lt_logb h10 hupos (by linarith)
  have hl96 : Real.logb 10 (Db2Lin (-96)) = (-96 : ℝ) / 10 := by
    unfold Db2Lin
    exact Real.logb_rpow h10p h10ne
  have hl94 : Real.logb 10 (Db2Lin (-94)) = (-94 : ℝ) / 10 := by
    unfold Db2Lin
    exact Real.logb_rpow h10p h10ne
  rw [hl96] at hlow
  rw [hl94] at hhigh
  refine ⟨?_, heq, ?_, ?_⟩
  · obtain ⟨s, hs, hval2, hdom⟩ := maxDiffMw_spec h
    exact ⟨s, hs, by rw [maxMarginDb, hval2], hdom⟩
  · rw [heq, Lin2Db]
    linarith
  · rw [heq, Lin2Db]
    linarith

/-- Witness for C7 at Scenario 2. -/
theorem scatterAnalyze_max_margin_witness :
    (∃ s ∈ [((-100 : ℝ), 2)], maxMarginDb [((-100 : ℝ), 2)] (-96) =
        Lin2Db (deltaLinear s + Db2Lin (-96)) - (-96) ∧
      ∀ s2 ∈ [((-100 : ℝ), 2)], deltaLinear s2 ≤ deltaLinear s) ∧
    maxMarginDb [((-100 : ℝ), 2)] (-96) =
      Lin2Db (Db2Lin (-98) - Db2Lin (-100) + Db2Lin (-96)) - (-96) ∧
    0 < maxMarginDb [((-100 : ℝ), 2)] (-96) ∧
    maxMarginDb [((-100 : ℝ), 2)] (-96) < 2 :=
  scatterAnalyze_max_margin [((-100 : ℝ), 2)] (-96) (List.cons_ne_nil _ _)

end DpaMarginSim
